import Mathlib

/-!
Verification development for the crush shell language runtime: a shallow
embedding of the value/type model, the AST compiler, the comparison
commands and the `for` iteration driver, with theorems about the
specified properties.
-/

namespace Crush

/-! ## Source locations and tracked strings -/

/-- Modelled from the spec: a `Location` is a span `[start, stop)` of byte
offsets into the source text (`src/lang/ast/location.rs` is not among the
sampled sources). -/
structure Location where
  start : Nat
  stop : Nat
deriving DecidableEq, Repr

/-- Modelled from the spec: the union of two locations is the smallest span
containing both. -/
def Location.union (a b : Location) : Location :=
  ⟨min a.start b.start, max a.stop b.stop⟩

/-- Modelled from the spec: containment of one span in another. -/
def Location.contains (outer inner : Location) : Prop :=
  outer.start ≤ inner.start ∧ inner.stop ≤ outer.stop

instance (a b : Location) : Decidable (Location.contains a b) := by
  unfold Location.contains; infer_instance

/-- Modelled from the spec: a `TrackedString` is a pair of textual content
and the location it was parsed from (`tracked_string.rs` is not among the
sampled sources). -/
structure TrackedString where
  string : String
  location : Location
deriving DecidableEq, Repr

/-! ## ValueType (`src/lang/value/value_type.rs`) -/

/-- A column of a schema: `ColumnType` is a (name, type) pair; source file
`src/lang/table.rs` is outside the sampled sources, the spec defines it as
`(name, ValueType)`.  The `ValueType` enum itself is embedded from
`src/lang/value/value_type.rs`. -/
inductive ValueType where
  | string
  | integer
  | time
  | duration
  | field
  | glob
  | regex
  | command
  | file
  | tableStream (columns : List (String × ValueType))
  | table (columns : List (String × ValueType))
  | struct (columns : List (String × ValueType))
  | list (element : ValueType)
  | dict (key : ValueType) (value : ValueType)
  | scope
  | bool
  | float
  | empty
  | any
  | binaryStream
  | binary
  | type

mutual

/-- `ValueType::materialize` from `src/lang/value/value_type.rs`:
`BinaryStream → Binary`, `TableStream(o) → Table(materialize o)`,
recursing through `Table`, `Struct`, `List` and `Dict`; identity on all
scalar variants. -/
def ValueType.materialize : ValueType → ValueType
  | .string => .string
  | .integer => .integer
  | .time => .time
  | .duration => .duration
  | .field => .field
  | .glob => .glob
  | .regex => .regex
  | .command => .command
  | .file => .file
  | .scope => .scope
  | .float => .float
  | .empty => .empty
  | .any => .any
  | .binary => .binary
  | .type => .type
  | .bool => .bool
  | .binaryStream => .binary
  | .tableStream o => .table (materializeSchema o)
  | .table r => .table (materializeSchema r)
  | .struct r => .struct (materializeSchema r)
  | .list l => .list l.materialize
  | .dict k v => .dict k.materialize v.materialize

/-- `ColumnType::materialize` applied to a schema; the spec defines it as
element-wise materialization of the column types (`table.rs` is not among
the sampled sources). -/
def materializeSchema : List (String × ValueType) → List (String × ValueType)
  | [] => []
  | (n, t) :: rest => (n, t.materialize) :: materializeSchema rest

end

/-- `ValueType::is_hashable` from `src/lang/value/value_type.rs`: false for
`Scope`, `List`, `Dict`, `Command`, `BinaryStream`, `TableStream`, `Struct`
and `Table`, true otherwise. -/
def ValueType.is_hashable : ValueType → Bool
  | .scope | .list _ | .dict _ _ | .command | .binaryStream
  | .tableStream _ | .struct _ | .table _ => false
  | _ => true

/-- `ValueType::is_comparable` from `src/lang/value/value_type.rs`: defined
as `is_hashable`. -/
def ValueType.is_comparable (t : ValueType) : Bool :=
  t.is_hashable

mutual

theorem ValueType.materialize_idem_aux : (t : ValueType) →
    t.materialize.materialize = t.materialize
  | .string => rfl
  | .integer => rfl
  | .time => rfl
  | .duration => rfl
  | .field => rfl
  | .glob => rfl
  | .regex => rfl
  | .command => rfl
  | .file => rfl
  | .scope => rfl
  | .float => rfl
  | .empty => rfl
  | .any => rfl
  | .binary => rfl
  | .type => rfl
  | .bool => rfl
  | .binaryStream => rfl
  | .tableStream o => by
      simp [ValueType.materialize, materializeSchema_idem_aux o]
  | .table r => by
      simp [ValueType.materialize, materializeSchema_idem_aux r]
  | .struct r => by
      simp [ValueType.materialize, materializeSchema_idem_aux r]
  | .list l => by
      simp [ValueType.materialize, ValueType.materialize_idem_aux l]
  | .dict k v => by
      simp [ValueType.materialize, ValueType.materialize_idem_aux k,
        ValueType.materialize_idem_aux v]

theorem materializeSchema_idem_aux : (l : List (String × ValueType)) →
    materializeSchema (materializeSchema l) = materializeSchema l
  | [] => rfl
  | (n, t) :: rest => by
      simp [materializeSchema, ValueType.materialize_idem_aux t,
        materializeSchema_idem_aux rest]

end

/-- C6: for every `ValueType` `t`, `materialize (materialize t) =
materialize t`: materializing twice yields the same type as materializing
once, for every variant including the nested `List`, `Dict`, `Struct`,
`Table`, `TableStream` and `BinaryStream` variants. -/
theorem materialize_idempotent (t : ValueType) :
    t.materialize.materialize = t.materialize :=
  ValueType.materialize_idem_aux t

/-! ## Values

`src/lang/value.rs` is not among the sampled sources; the `Value` model
below is modelled from the spec's data-model table.  Payloads that are
process handles (commands, scopes) are represented by identifiers, a
`Float` is a rational or the marker `none` for NaN, and the stream-backed
variants (whose payload is a live channel) are omitted. -/

/-- Modelled from the spec: a tagged value variant.  `struct` carries the
ordered (name, value) pairs, `list` and `dict` their elements, `command`
and `scopeRef` opaque handles. -/
inductive Value where
  | string (s : String)
  | integer (i : Int)
  | float (q : Option ℚ)
  | bool (b : Bool)
  | time (t : Int)
  | duration (d : Int)
  | field (path : List String)
  | glob (pattern : String)
  | regex (source : String)
  | file (path : String)
  | binary (bytes : List Nat)
  | command (handle : List String)
  | scopeRef (handle : Nat)
  | struct (fields : List (String × Value))
  | list (items : List Value)
  | dict (entries : List (Value × Value))
  | empty

mutual

/-- Modelled from the spec: structural equality of values ("Equality is
structural"), as a boolean predicate mirroring the derived `PartialEq` of
the `Value` enum. -/
def Value.veq : Value → Value → Bool
  | .string a, .string b => a = b
  | .integer a, .integer b => a = b
  | .float a, .float b => a = b
  | .bool a, .bool b => a = b
  | .time a, .time b => a = b
  | .duration a, .duration b => a = b
  | .field a, .field b => a = b
  | .glob a, .glob b => a = b
  | .regex a, .regex b => a = b
  | .file a, .file b => a = b
  | .binary a, .binary b => a = b
  | .command a, .command b => a = b
  | .scopeRef a, .scopeRef b => a = b
  | .struct a, .struct b => veqFields a b
  | .list a, .list b => veqItems a b
  | .dict a, .dict b => veqEntries a b
  | .empty, .empty => true
  | _, _ => false

/-- Structural equality of struct field lists. -/
def Value.veqFields : List (String × Value) → List (String × Value) → Bool
  | [], [] => true
  | (n, v) :: rest, (m, w) :: rest' =>
      n = m && Value.veq v w && Value.veqFields rest rest'
  | _, _ => false

/-- Structural equality of value lists. -/
def Value.veqItems : List Value → List Value → Bool
  | [], [] => true
  | v :: rest, w :: rest' => Value.veq v w && Value.veqItems rest rest'
  | _, _ => false

/-- Structural equality of dict entry lists. -/
def Value.veqEntries : List (Value × Value) → List (Value × Value) → Bool
  | [], [] => true
  | (k, v) :: rest, (k', v') :: rest' =>
      Value.veq k k' && Value.veq v v' && Value.veqEntries rest rest'
  | _, _ => false

end

set_option maxHeartbeats 2000000 in
mutual

theorem Value.veq_iff : (a b : Value) → (Value.veq a b = true ↔ a = b)
  | .string _, b => by cases b <;> simp [Value.veq]
  | .integer _, b => by cases b <;> simp [Value.veq]
  | .float _, b => by cases b <;> simp [Value.veq]
  | .bool _, b => by cases b <;> simp [Value.veq]
  | .time _, b => by cases b <;> simp [Value.veq]
  | .duration _, b => by cases b <;> simp [Value.veq]
  | .field _, b => by cases b <;> simp [Value.veq]
  | .glob _, b => by cases b <;> simp [Value.veq]
  | .regex _, b => by cases b <;> simp [Value.veq]
  | .file _, b => by cases b <;> simp [Value.veq]
  | .binary _, b => by cases b <;> simp [Value.veq]
  | .command _, b => by cases b <;> simp [Value.veq]
  | .scopeRef _, b => by cases b <;> simp [Value.veq]
  | .struct xs, b => by
      cases b <;> simp [Value.veq]
      exact Value.veqFields_iff xs _
  | .list xs, b => by
      cases b <;> simp [Value.veq]
      exact Value.veqItems_iff xs _
  | .dict xs, b => by
      cases b <;> simp [Value.veq]
      exact Value.veqEntries_iff xs _
  | .empty, b => by cases b <;> simp [Value.veq]

theorem Value.veqFields_iff : (xs ys : List (String × Value)) →
    (Value.veqFields xs ys = true ↔ xs = ys)
  | [], [] => by simp [Value.veqFields]
  | [], _ :: _ => by simp [Value.veqFields]
  | _ :: _, [] => by simp [Value.veqFields]
  | (n, v) :: rest, (m, w) :: rest' => by
      simp [Value.veqFields, Value.veq_iff v w, Value.veqFields_iff rest rest',
        and_assoc]

theorem Value.veqItems_iff : (xs ys : List Value) →
    (Value.veqItems xs ys = true ↔ xs = ys)
  | [], [] => by simp [Value.veqItems]
  | [], _ :: _ => by simp [Value.veqItems]
  | _ :: _, [] => by simp [Value.veqItems]
  | v :: rest, w :: rest' => by
      simp [Value.veqItems, Value.veq_iff v w, Value.veqItems_iff rest rest']

theorem Value.veqEntries_iff : (xs ys : List (Value × Value)) →
    (Value.veqEntries xs ys = true ↔ xs = ys)
  | [], [] => by simp [Value.veqEntries]
  | [], _ :: _ => by simp [Value.veqEntries]
  | _ :: _, [] => by simp [Value.veqEntries]
  | (k, v) :: rest, (k', v') :: rest' => by
      simp [Value.veqEntries, Value.veq_iff k k', Value.veq_iff v v',
        Value.veqEntries_iff rest rest', and_assoc]

end

instance : DecidableEq Value := fun a b =>
  decidable_of_iff _ (Value.veq_iff a b)

/-- The variant tag of a value, used to state cross-variant facts. -/
def Value.tag : Value → Nat
  | .string _ => 0
  | .integer _ => 1
  | .float _ => 2
  | .bool _ => 3
  | .time _ => 4
  | .duration _ => 5
  | .field _ => 6
  | .glob _ => 7
  | .regex _ => 8
  | .file _ => 9
  | .binary _ => 10
  | .command _ => 11
  | .scopeRef _ => 12
  | .struct _ => 13
  | .list _ => 14
  | .dict _ => 15
  | .empty => 16

/-- Lexicographic comparison of lists from an element comparison. -/
def compareListWith {α : Type} (cmp : α → α → Ordering) :
    List α → List α → Ordering
  | [], [] => .eq
  | [], _ :: _ => .lt
  | _ :: _, [] => .gt
  | a :: as, b :: bs =>
      match cmp a b with
      | .eq => compareListWith cmp as bs
      | o => o

/-- Modelled from the spec: partial comparison of two values
(`PartialOrd` on the `Value` enum, whose source is not among the sampled
files).  Ordering is total within each hashable variant, undefined across
variants and for the non-hashable variants; a NaN float comparison is
undefined rather than silently unordered. -/
def Value.partialCmp : Value → Value → Option Ordering
  | .string a, .string b => some (compare a b)
  | .integer a, .integer b => some (compare a b)
  | .float (some a), .float (some b) => some (compare a b)
  | .bool a, .bool b => some (compare a b)
  | .time a, .time b => some (compare a b)
  | .duration a, .duration b => some (compare a b)
  | .field a, .field b => some (compareListWith compare a b)
  | .glob a, .glob b => some (compare a b)
  | .regex a, .regex b => some (compare a b)
  | .file a, .file b => some (compare a b)
  | .binary a, .binary b => some (compareListWith compare a b)
  | .empty, .empty => some .eq
  | _, _ => none

/-! ## Errors and command results

A built-in command has signature `Context → CrushResult<()>`; it reads its
arguments and sends result values to its output pipe.  We model a
non-stream command as a function from the argument values to either an
error or the list of values sent to the output. -/

/-- The error kinds relevant to the embedded commands; each carries its
message (`src/lang/errors.rs` is not among the sampled sources). -/
inductive CrushError where
  | argument (message : String)
  | generic (message : String)
deriving DecidableEq, Repr

/-! ## The comparison commands (`src/lib/comp.rs`) -/

namespace comp

/-- `gt` from `src/lib/comp.rs`: exactly two arguments, send
`Bool(ordering == Greater)` when the partial comparison is defined,
otherwise fail with `Uncomparable values`. -/
def gt (arguments : List Value) : Except CrushError (List Value) :=
  match arguments with
  | [l, r] =>
      match Value.partialCmp l r with
      | some ordering => .ok [.bool (ordering == Ordering.gt)]
      | none => .error (.argument "Uncomparable values")
  | _ => .error (.argument "Expected exactly two arguments")

/-- `lt` from `src/lib/comp.rs`. -/
def lt (arguments : List Value) : Except CrushError (List Value) :=
  match arguments with
  | [l, r] =>
      match Value.partialCmp l r with
      | some ordering => .ok [.bool (ordering == Ordering.lt)]
      | none => .error (.argument "Uncomparable values")
  | _ => .error (.argument "Expected exactly two arguments")

/-- `lte` from `src/lib/comp.rs`: sends `Bool(ordering != Greater)`. -/
def lte (arguments : List Value) : Except CrushError (List Value) :=
  match arguments with
  | [l, r] =>
      match Value.partialCmp l r with
      | some ordering => .ok [.bool (ordering != Ordering.gt)]
      | none => .error (.argument "Uncomparable values")
  | _ => .error (.argument "Expected exactly two arguments")

/-- `gte` from `src/lib/comp.rs`: sends `Bool(ordering != Less)`. -/
def gte (arguments : List Value) : Except CrushError (List Value) :=
  match arguments with
  | [l, r] =>
      match Value.partialCmp l r with
      | some ordering => .ok [.bool (ordering != Ordering.lt)]
      | none => .error (.argument "Uncomparable values")
  | _ => .error (.argument "Expected exactly two arguments")

/-- `eq` from `src/lib/comp.rs`: sends `Bool(l.eq(&r))`, never consulting
the partial ordering. -/
def eq (arguments : List Value) : Except CrushError (List Value) :=
  match arguments with
  | [l, r] => .ok [.bool (Value.veq l r)]
  | _ => .error (.argument "Expected exactly two arguments")

/-- `neq` from `src/lib/comp.rs`: sends `Bool(!l.eq(&r))`. -/
def neq (arguments : List Value) : Except CrushError (List Value) :=
  match arguments with
  | [l, r] => .ok [.bool (!Value.veq l r)]
  | _ => .error (.argument "Expected exactly two arguments")

end comp

/-- C8: for every two values `l`, `r` given as exactly two arguments to
`gt`, `lt`, `gte` or `lte`: when no ordering is defined between them the
command fails with an error and sends nothing; when an ordering `o` is
defined the command succeeds, sending exactly the Bool of the
corresponding comparison of `o`. -/
theorem comp_ordering_commands (l r : Value) :
    (Value.partialCmp l r = none →
      comp.gt [l, r] = .error (.argument "Uncomparable values") ∧
      comp.lt [l, r] = .error (.argument "Uncomparable values") ∧
      comp.gte [l, r] = .error (.argument "Uncomparable values") ∧
      comp.lte [l, r] = .error (.argument "Uncomparable values")) ∧
    (∀ o, Value.partialCmp l r = some o →
      comp.gt [l, r] = .ok [.bool (decide (o = Ordering.gt))] ∧
      comp.lt [l, r] = .ok [.bool (decide (o = Ordering.lt))] ∧
      comp.gte [l, r] = .ok [.bool (decide (o ≠ Ordering.lt))] ∧
      comp.lte [l, r] = .ok [.bool (decide (o ≠ Ordering.gt))]) := by
  constructor
  · intro h
    simp [comp.gt, comp.lt, comp.gte, comp.lte, h]
  · intro o h
    cases o <;> simp [comp.gt, comp.lt, comp.gte, comp.lte, h] <;> decide

/-- Witness for C8: a concrete incomparable pair fails and a concrete
comparable pair succeeds with the comparison result. -/
theorem comp_ordering_commands_witness :
    comp.gt [.integer 1, .string "a"] =
      .error (.argument "Uncomparable values") ∧
    comp.gt [.integer 2, .integer 1] = .ok [.bool true] :=
  ⟨((comp_ordering_commands (.integer 1) (.string "a")).1 rfl).1,
   by
    have h := ((comp_ordering_commands (.integer 2) (.integer 1)).2
      Ordering.gt (by decide)).1
    simpa using h⟩

/-- C9: for every two values given as exactly two arguments to `eq` and
`neq` the command never fails: it sends the Bool of structural equality
(respectively its negation), structural equality is genuine equality of
values, and values of different variants compare unequal without error. -/
theorem comp_equality_commands (l r : Value) :
    comp.eq [l, r] = .ok [.bool (Value.veq l r)] ∧
    comp.neq [l, r] = .ok [.bool (!Value.veq l r)] ∧
    (Value.veq l r = true ↔ l = r) ∧
    (Value.tag l ≠ Value.tag r →
      comp.eq [l, r] = .ok [.bool false] ∧
      comp.neq [l, r] = .ok [.bool true]) := by
  refine ⟨rfl, rfl, Value.veq_iff l r, ?_⟩
  intro htag
  have hne : Value.veq l r = false := by
    cases hv : Value.veq l r
    · rfl
    · exact absurd (congrArg Value.tag ((Value.veq_iff l r).mp hv)) htag
  simp [comp.eq, comp.neq, hne]

/-- Witness for C9: two values of different, non-comparable variants
compare unequal without an error. -/
theorem comp_equality_commands_witness :
    comp.eq [.list [], .scopeRef 0] = .ok [.bool false] ∧
    comp.neq [.list [], .scopeRef 0] = .ok [.bool true] :=
  (comp_equality_commands (.list []) (.scopeRef 0)).2.2.2 (by decide)

/-! ## Literal parsing helpers -/

/-- Modelled from the spec: Rust's `str::parse::<i128>` — an optional
sign followed by one or more ASCII decimal digits, base 10, with a range
check against the 128-bit signed bounds.  Underscores are not accepted by
this parser. -/
def parseI128 (s : String) : Except CrushError Int :=
  let chars := s.data
  let signed : Int × List Char :=
    match chars with
    | '+' :: rest => (1, rest)
    | '-' :: rest => (-1, rest)
    | _ => (1, chars)
  match signed with
  | (sign, digits) =>
    if digits = [] then
      .error (.generic "cannot parse integer from empty string")
    else if digits.all (fun c => c.isDigit) then
      let n : Nat := digits.foldl (fun acc c => acc * 10 + (c.toNat - 48)) 0
      let v : Int := sign * n
      if -(2 ^ 127) ≤ v ∧ v < 2 ^ 127 then .ok v
      else .error (.generic "number too large to fit in target type")
    else .error (.generic "invalid digit found in string")

/-- Digits of a decimal literal read as a natural number. -/
def digitsToNat (l : List Char) : Nat :=
  l.foldl (fun acc c => acc * 10 + (c.toNat - 48)) 0

/-- Modelled from the spec: the external `str::parse::<f64>` for float
literals, represented exactly over the rationals: an optional sign, an
integer part, an optional fraction and an optional decimal exponent. -/
def parseF64 (s : String) : Except CrushError ℚ :=
  let chars := s.data
  let signed : ℚ × List Char :=
    match chars with
    | '+' :: rest => (1, rest)
    | '-' :: rest => (-1, rest)
    | _ => (1, chars)
  match signed with
  | (sign, body) =>
    let mantissaExp : List Char × List Char :=
      match body.splitOn 'e' with
      | [m] => (m, [])
      | [m, e] => (m, e)
      | _ => ([], [])
    match mantissaExp with
    | (mantissa, expPart) =>
      let intFrac : List Char × List Char :=
        match mantissa.splitOn '.' with
        | [i] => (i, [])
        | [i, f] => (i, f)
        | _ => ([], [])
      match intFrac with
      | (intPart, fracPart) =>
        if intPart.all (fun c => c.isDigit) ∧ fracPart.all (fun c => c.isDigit) ∧
            intPart ≠ [] then
          let base : ℚ := (digitsToNat intPart : ℚ) +
            (digitsToNat fracPart : ℚ) / ((10 : ℚ) ^ fracPart.length)
          match expPart with
          | [] => .ok (sign * base)
          | _ =>
            let expSigned : Int × List Char :=
              match expPart with
              | '+' :: r => (1, r)
              | '-' :: r => (-1, r)
              | _ => (1, expPart)
            match expSigned with
            | (esign, edigits) =>
              if edigits ≠ [] ∧ edigits.all (fun c => c.isDigit) then
                .ok (sign * base * (10 : ℚ) ^ (esign * (digitsToNat edigits : Int)))
              else .error (.generic "invalid float literal")
        else .error (.generic "invalid float literal")

/-- `str::replace("_", "")` as used on integer and float literals:
removes every underscore from the text. -/
def stripUnderscores (s : String) : String :=
  String.mk (s.data.filter (fun c => c ≠ '_'))

/-- Modelled from the spec: `parse_name` splits a dotted path into its
segments, all of which must be nonempty (`src/lang/parser.rs` is not among
the sampled sources). -/
def parse_name (s : String) : Option (List String) :=
  let parts := s.splitOn "."
  if parts.all (fun p => p ≠ "") then some parts else none

/-- `ValueType::parse` from `src/lang/value/value_type.rs`: type-directed
literal parsing.  `String` is the identity, `Integer` parses the text
directly with `str::parse::<i128>`, `Field` uses `parse_name`, `Glob` and
`Regex` wrap the text, `File` stores the text as a `String` value, `Float`
uses `str::parse::<f64>`, `Bool` accepts `true`/`false`, and every other
variant fails. -/
def ValueType.parse (t : ValueType) (s : String) : Except CrushError Value :=
  match t with
  | .string => .ok (.string s)
  | .integer =>
      match parseI128 s with
      | .ok n => .ok (.integer n)
      | .error e => .error e
  | .field =>
      match parse_name s with
      | some path => .ok (.field path)
      | none => .error (.generic "Invalid field name")
  | .glob => .ok (.glob s)
  | .regex => .ok (.regex s)
  | .file => .ok (.string s)
  | .float =>
      match parseF64 s with
      | .ok q => .ok (.float (some q))
      | .error e => .error e
  | .bool =>
      match s with
      | "true" => .ok (.bool true)
      | "false" => .ok (.bool false)
      | _ => .error (.generic "provided string was not `true` or `false`")
  | _ => .error (.generic "Failed to parse cell")

/-- Modelled from the spec: escape decoding of a quoted literal
(`src/util/escape.rs` is not among the sampled sources): `\n`, `\r` and
`\t` decode to the control characters, any other escaped character stands
for itself, and a trailing backslash is an error. -/
def unescapeChars : List Char → Except CrushError (List Char)
  | [] => .ok []
  | '\\' :: [] => .error (.generic "Invalid escape sequence")
  | '\\' :: c :: rest =>
      let d : Char :=
        match c with
        | 'n' => '\n'
        | 'r' => '\r'
        | 't' => '\t'
        | _ => c
      match unescapeChars rest with
      | .ok tail => .ok (d :: tail)
      | .error e => .error e
  | c :: rest =>
      match unescapeChars rest with
      | .ok tail => .ok (c :: tail)
      | .error e => .error e

/-- Escape decoding on strings. -/
def unescape (s : String) : Except CrushError String :=
  match unescapeChars s.data with
  | .ok chars => .ok (String.mk chars)
  | .error e => .error e

/-! ## The AST (`src/lang/ast/node.rs`)

The grouping nodes (`CommandNode`, `JobNode`, `JobListNode`) and
`ParameterNode` live in `src/lang/ast/mod.rs` and
`src/lang/ast/parameter_node.rs`, which are not among the sampled sources;
their shapes are modelled from the spec's data model. -/

/-- The switch style carried by an argument definition (source
`src/lang/argument.rs` is not among the sampled sources). -/
inductive SwitchStyle where
  | normal
  | single
  | double
deriving DecidableEq, Repr

mutual

/-- The `Node` enum from `src/lang/ast/node.rs`: a node in the abstract
syntax tree that is the output of parsing a crush script. -/
inductive Node where
  | assignment (target : Node) (style : SwitchStyle) (op : String) (value : Node)
  | unary (op : TrackedString) (operand : Node)
  | glob (t : TrackedString)
  | identifier (t : TrackedString)
  | regex (t : TrackedString)
  | string (t : TrackedString) (quoted : Bool)
  | file (t : TrackedString) (quoted : Bool)
  | integer (t : TrackedString)
  | float (t : TrackedString)
  | getItem (container : Node) (key : Node)
  | getAttr (container : Node) (name : TrackedString)
  | substitution (job : JobNode)
  | closure (parameters : Option (List ParameterNode)) (body : JobListNode)

/-- Modelled from the spec: `CommandNode = (expressions, location)`. -/
inductive CommandNode where
  | mk (expressions : List Node) (location : Location)

/-- Modelled from the spec: `JobNode = (commands, location)`. -/
inductive JobNode where
  | mk (commands : List CommandNode) (location : Location)

/-- Modelled from the spec: `JobListNode = (jobs, location)`. -/
inductive JobListNode where
  | mk (jobs : List JobNode) (location : Location)

/-- Modelled from the spec: a `ParameterNode` carries a name token, an
optional type expression, an optional default, or a varargs marker
(`@` positional, `@@` named). -/
inductive ParameterNode where
  | parameter (name : TrackedString) (valueType : Option Node) (default : Option Node)
  | unnamedVarargs (name : TrackedString)
  | namedVarargs (name : TrackedString)

end

/-- The location field of a job node. -/
def JobNode.location : JobNode → Location
  | .mk _ l => l

/-- The command list of a job node. -/
def JobNode.commands : JobNode → List CommandNode
  | .mk c _ => c

/-- The location field of a job list node. -/
def JobListNode.location : JobListNode → Location
  | .mk _ l => l

/-- The job list of a job list node. -/
def JobListNode.jobs : JobListNode → List JobNode
  | .mk j _ => j

/-- `Node::location` from `src/lang/ast/node.rs`: leaf nodes return their
token's location; `Assignment` unions target and value; `Unary` unions the
operator token and the operand; `GetItem`/`GetAttr` union their parts;
`Substitution` and `Closure` return the stored job location (the closure's
parameters are not included — see the Fixme in the source). -/
def Node.location : Node → Location
  | .glob s | .identifier s | .regex s | .integer s | .float s => s.location
  | .string s _ | .file s _ => s.location
  | .assignment a _ _ b => (Node.location a).union (Node.location b)
  | .unary s a => s.location.union (Node.location a)
  | .getItem a b => (Node.location a).union (Node.location b)
  | .getAttr p n => (Node.location p).union n.location
  | .substitution j => j.location
  | .closure _ j => j.location

/-- `Node::type_name` from `src/lang/ast/node.rs`. -/
def Node.type_name : Node → String
  | .assignment _ _ _ _ => "assignment"
  | .unary _ _ => "unary operator"
  | .glob _ => "glob"
  | .identifier _ => "identifier"
  | .regex _ => "regular expression literal"
  | .string _ _ => "string literal"
  | .file _ _ => "file literal"
  | .integer _ => "integer literal"
  | .float _ => "floating point number literal"
  | .getItem _ _ => "subscript"
  | .getAttr _ _ => "member access"
  | .substitution _ => "command substitution"
  | .closure _ _ => "closure"

/-! ## Compiled definitions

`ArgumentDefinition`, `ValueDefinition`, `Job` and `CommandInvocation`
live in `src/lang/argument.rs`, `src/lang/value.rs`, `src/lang/job.rs` and
`src/lang/command_invocation.rs`, which are not among the sampled sources;
their shapes are modelled from the spec's data model. -/

/-- Modelled from the spec: the compiled form of a closure parameter; the
resolution of its declared type expression happens at closure construction
time, outside the sampled sources, so the parameter node is carried. -/
structure Parameter where
  node : ParameterNode

/-- Modelled from the spec: `ParameterNode::generate(scope)` produces the
compiled parameter (type-expression resolution is external). -/
def ParameterNode.generate (p : ParameterNode) (_env : Unit) :
    Except CrushError Parameter :=
  .ok ⟨p⟩

/-- Whether an argument is plain or an `@`/`@@` splat marker. -/
inductive ArgumentKind where
  | plain
  | spreadList
  | spreadDict
deriving DecidableEq, Repr

mutual

/-- Modelled from the spec: a `ValueDefinition` is a literal value, an
identifier to look up, an attribute path, a nested job definition, or a
closure definition. -/
inductive ValueDefinition where
  | value (v : Value) (location : Location)
  | identifier (t : TrackedString)
  | getAttr (inner : ValueDefinition) (name : TrackedString)
  | jobDefinition (job : Job)
  | closureDefinition (name : Option String) (parameters : Option (List Parameter))
      (jobs : List Job) (location : Location)

/-- Modelled from the spec: `ArgumentDefinition = (optional name,
SwitchStyle, ValueDefinition)`, plus the splat marker of `@`/`@@`
arguments. -/
inductive ArgumentDefinition where
  | mk (name : Option TrackedString) (style : SwitchStyle) (kind : ArgumentKind)
      (value : ValueDefinition)

/-- Modelled from the spec: `CommandInvocation = (ValueDefinition naming
the callable, [ArgumentDefinition])`. -/
inductive CommandInvocation where
  | mk (command : ValueDefinition) (arguments : List ArgumentDefinition)

/-- Modelled from the spec: a `Job` is a sequence of command invocations
with a location. -/
inductive Job where
  | mk (invocations : List CommandInvocation) (location : Location)

end

/-- `ArgumentDefinition::unnamed`. -/
def ArgumentDefinition.unnamed (v : ValueDefinition) : ArgumentDefinition :=
  .mk none .normal .plain v

/-- `ArgumentDefinition::named`. -/
def ArgumentDefinition.named (t : TrackedString) (v : ValueDefinition) :
    ArgumentDefinition :=
  .mk (some t) .normal .plain v

/-- `ArgumentDefinition::named_with_style`. -/
def ArgumentDefinition.named_with_style (t : TrackedString) (s : SwitchStyle)
    (v : ValueDefinition) : ArgumentDefinition :=
  .mk (some t) s .plain v

/-- `ArgumentDefinition::list`: the `@` splat marker. -/
def ArgumentDefinition.list (v : ValueDefinition) : ArgumentDefinition :=
  .mk none .normal .spreadList v

/-- `ArgumentDefinition::dict`: the `@@` splat marker. -/
def ArgumentDefinition.dict (v : ValueDefinition) : ArgumentDefinition :=
  .mk none .normal .spreadDict v

/-- Modelled from the spec: `ArgumentDefinition::unnamed_value` returns
the value of an argument definition that carries no name and fails
otherwise. -/
def ArgumentDefinition.unnamed_value : ArgumentDefinition →
    Except CrushError ValueDefinition
  | .mk none _ _ v => .ok v
  | .mk (some _) _ _ _ => .error (.generic "Expected an unnamed argument")

/-- Modelled from the spec: `propose_name` — if the compiled value is a
closure literal without a declared name, its name becomes the target's
text; every other value definition is unchanged. -/
def propose_name (t : TrackedString) : ValueDefinition → ValueDefinition
  | .closureDefinition none p j l => .closureDefinition (some t.string) p j l
  | v => v

/-- Modelled from the spec: the compile-time interface of a scope — the
`global_static_cmd` traversal from the global root, resolving a fixed
dotted path to a command handle when every segment exists
(`src/lang/state/scope.rs` is not among the sampled sources). -/
structure Scope where
  resolve : List String → Option (List String)

/-- `Scope::global_static_cmd` as a fallible lookup. -/
def Scope.global_static_cmd (env : Scope) (path : List String) :
    Except CrushError (List String) :=
  match env.resolve path with
  | some cmd => .ok cmd
  | none => .error (.generic "Unknown command")

/-- `Node::function_invocation` from `src/lang/ast/node.rs`: an invocation
whose callable is the literal command value at the given location. -/
def function_invocation (function : List String) (location : Location)
    (arguments : List ArgumentDefinition) :
    Except CrushError (Option CommandInvocation) :=
  .ok (some (CommandInvocation.mk (.value (.command function) location) arguments))

/-- Generates the compiled parameters of a closure's parameter list. -/
def generateParams : List ParameterNode → Except CrushError (List Parameter)
  | [] => .ok []
  | p :: rest => do
      let a ← p.generate ()
      let as' ← generateParams rest
      pure (a :: as')

mutual

/-- `Node::compile` from `src/lang/ast/node.rs` (the `is_command` flag is
the command-position test): each node compiles to an argument definition;
assignments in argument position become named arguments, `@`/`@@` become
splat markers, subscripts become a nested `__getitem__` job, literals
become values (integers and floats with underscores stripped), and an
unquoted string is an identifier in command position and a string value
otherwise. -/
def Node.compile (n : Node) (env : Scope) (is_command : Bool) :
    Except CrushError ArgumentDefinition :=
  match n with
  | .assignment target style op value =>
      match op with
      | "=" =>
          match target with
          | .string t false | .identifier t => do
              let ad ← Node.compile value env false
              let v ← ad.unnamed_value
              pure (ArgumentDefinition.named_with_style t style (propose_name t v))
          | _ => .error (.generic
              ("Invalid left side in named argument. Expected a string or identifier, got a "
                ++ target.type_name))
      | _ => .error (.generic "Invalid assignment operator")
  | .getItem a o => do
      match ← Node.compile_as_special_command (.getItem a o) env with
      | some inv =>
          pure (ArgumentDefinition.unnamed (.jobDefinition
            (Job.mk [inv] ((Node.location a).union (Node.location o)))))
      | none => .error (.generic "Internal error: subscript is always a special command")
  | .unary op r =>
      match op.string with
      | "@" => do
          let ad ← Node.compile r env false
          let v ← ad.unnamed_value
          pure (ArgumentDefinition.list v)
      | "@@" => do
          let ad ← Node.compile r env false
          let v ← ad.unnamed_value
          pure (ArgumentDefinition.dict v)
      | _ => .error (.generic "Unknown operator")
  | .identifier l => pure (ArgumentDefinition.unnamed (.identifier l))
  | .regex l =>
      pure (ArgumentDefinition.unnamed (.value (.regex l.string) l.location))
  | .string t true => do
      let u ← unescape t.string
      pure (ArgumentDefinition.unnamed (.value (.string u) t.location))
  | .string f false =>
      if is_command then
        pure (ArgumentDefinition.unnamed (.identifier f))
      else
        pure (ArgumentDefinition.unnamed (.value (.string f.string) f.location))
  | .integer s => do
      let n ← parseI128 (stripUnderscores s.string)
      pure (ArgumentDefinition.unnamed (.value (.integer n) s.location))
  | .float s => do
      let q ← parseF64 (stripUnderscores s.string)
      pure (ArgumentDefinition.unnamed (.value (.float (some q)) s.location))
  | .getAttr node identifier => do
      let ad ← Node.compile node env is_command
      let v ← ad.unnamed_value
      pure (ArgumentDefinition.unnamed (.getAttr v identifier))
  | .substitution s => do
      let j ← JobNode.compile s env
      pure (ArgumentDefinition.unnamed (.jobDefinition j))
  | .closure s c => do
      let p ← match s with
        | none => pure none
        | some v => do
            let params ← generateParams v
            pure (some params)
      let jobs ← JobListNode.compile c env
      pure (ArgumentDefinition.unnamed
        (.closureDefinition none p jobs c.location))
  | .glob g =>
      pure (ArgumentDefinition.unnamed (.value (.glob g.string) g.location))
  | .file s quoted => do
      let path ← if quoted then unescape s.string else pure s.string
      pure (ArgumentDefinition.unnamed (.value (.file path) s.location))
termination_by (sizeOf n, 1)

/-- `Node::compile_as_special_command` from `src/lang/ast/node.rs`:
assignments dispatch to the standalone-assignment compiler, subscripts
become a `__getitem__` method invocation, `@`/`@@` are not special
commands, unknown unary operators fail, and every other node is not a
special command. -/
def Node.compile_as_special_command (n : Node) (env : Scope) :
    Except CrushError (Option CommandInvocation) :=
  match n with
  | .assignment target _style op value =>
      compile_standalone_assignment target op value env
  | .getItem val key => do
      let karg ← Node.compile key env false
      Node.method_invocation val ⟨"__getitem__", key.location⟩ [karg] env true
  | .unary op _ =>
      match op.string with
      | "@" | "@@" => .ok none
      | _ => .error (.generic "Unknown operator")
  | _ => .ok none
termination_by (sizeOf n, 0)

/-- `Node::compile_standalone_assignment` from `src/lang/ast/node.rs`:
`=` with an identifier target invokes `global:var:set` with a single named
argument; `=` with a subscript target invokes `__setitem__` on the
container with the compiled key and value; `=` with an attribute target
invokes `__setattr__` with the attribute name and the value; `:=` with an
identifier target invokes `global:var:let`; everything else fails. -/
def compile_standalone_assignment (target : Node) (op : String) (value : Node)
    (env : Scope) : Except CrushError (Option CommandInvocation) :=
  match op with
  | "=" =>
      match target with
      | .identifier t => do
          let cmd ← env.global_static_cmd ["global", "var", "set"]
          let ad ← Node.compile value env false
          let v ← ad.unnamed_value
          function_invocation cmd t.location
            [ArgumentDefinition.named t (propose_name t v)]
      | .getItem container key => do
          let karg ← Node.compile key env false
          let kv ← karg.unnamed_value
          let varg ← Node.compile value env false
          let vv ← varg.unnamed_value
          Node.method_invocation container ⟨"__setitem__", key.location⟩
            [ArgumentDefinition.unnamed kv, ArgumentDefinition.unnamed vv] env true
      | .getAttr container attr => do
          let varg ← Node.compile value env false
          let vv ← varg.unnamed_value
          Node.method_invocation container ⟨"__setattr__", attr.location⟩
            [ArgumentDefinition.unnamed (.value (.string attr.string) attr.location),
             ArgumentDefinition.unnamed vv] env true
      | _ => .error (.generic "Invalid left side in assignment")
  | ":=" =>
      match target with
      | .identifier t => do
          let cmd ← env.global_static_cmd ["global", "var", "let"]
          let ad ← Node.compile value env false
          let v ← ad.unnamed_value
          function_invocation cmd t.location
            [ArgumentDefinition.named t (propose_name t v)]
      | _ => .error (.generic "Invalid left side in declaration")
  | _ => .error (.generic "Unknown assignment operator")
termination_by (sizeOf target + sizeOf value, 0)

/-- `Node::method_invocation` from `src/lang/ast/node.rs`: an invocation
whose callable is the named attribute of the compiled receiver. -/
def Node.method_invocation (n : Node) (name : TrackedString)
    (arguments : List ArgumentDefinition) (env : Scope) (as_command : Bool) :
    Except CrushError (Option CommandInvocation) := do
  let ad ← Node.compile n env as_command
  let v ← ad.unnamed_value
  pure (some (CommandInvocation.mk (.getAttr v name) arguments))
termination_by (sizeOf n, 2)

/-- Modelled from the spec: compilation of a command node (the grouping
nodes' compilation lives in `src/lang/ast/mod.rs`, outside the sampled
sources): the first expression is checked for the special
assignment/subscript command forms; otherwise it compiles in command
position as the callable and the remaining expressions become
arguments. -/
def CommandNode.compile (c : CommandNode) (env : Scope) :
    Except CrushError CommandInvocation :=
  match c with
  | .mk exprs _loc =>
      match exprs with
      | [] => .error (.generic "Empty command")
      | first :: rest => do
          match ← Node.compile_as_special_command first env with
          | some inv => pure inv
          | none => do
              let cad ← Node.compile first env true
              let cv ← cad.unnamed_value
              let args ← compileArgumentNodes rest env
              pure (CommandInvocation.mk cv args)
termination_by (sizeOf c, 0)

/-- Modelled from the spec: a job node compiles to the `Job` holding its
command invocations and location. -/
def JobNode.compile (j : JobNode) (env : Scope) : Except CrushError Job :=
  match j with
  | .mk commands location => do
      let invs ← compileCommandNodes commands env
      pure (Job.mk invs location)
termination_by (sizeOf j, 0)

/-- Modelled from the spec: a job list node compiles each job in order. -/
def JobListNode.compile (l : JobListNode) (env : Scope) :
    Except CrushError (List Job) :=
  match l with
  | .mk jobs _location => compileJobNodes jobs env
termination_by (sizeOf l, 0)

/-- Compiles each node of a list in argument position. -/
def compileArgumentNodes (l : List Node) (env : Scope) :
    Except CrushError (List ArgumentDefinition) :=
  match l with
  | [] => .ok []
  | n :: rest => do
      let a ← Node.compile n env false
      let as' ← compileArgumentNodes rest env
      pure (a :: as')
termination_by (sizeOf l, 0)

/-- Compiles each command node of a list. -/
def compileCommandNodes (l : List CommandNode) (env : Scope) :
    Except CrushError (List CommandInvocation) :=
  match l with
  | [] => .ok []
  | c :: rest => do
      let i ← CommandNode.compile c env
      let is' ← compileCommandNodes rest env
      pure (i :: is')
termination_by (sizeOf l, 0)

/-- Compiles each job node of a list. -/
def compileJobNodes (l : List JobNode) (env : Scope) :
    Except CrushError (List Job) :=
  match l with
  | [] => .ok []
  | j :: rest => do
      let a ← JobNode.compile j env
      let as' ← compileJobNodes rest env
      pure (a :: as')
termination_by (sizeOf l, 0)

end

/-- `Node::compile_command`: compilation in command position. -/
def Node.compile_command (n : Node) (env : Scope) :
    Except CrushError ArgumentDefinition :=
  n.compile env true

/-- `Node::compile_argument`: compilation in argument position. -/
def Node.compile_argument (n : Node) (env : Scope) :
    Except CrushError ArgumentDefinition :=
  n.compile env false

/-- The `compile_argument(env)?.unnamed_value()?` (respectively
command-position) idiom of the source: the compiled unnamed value of a
node. -/
def Node.compile_value (n : Node) (env : Scope) (is_command : Bool) :
    Except CrushError ValueDefinition := do
  let a ← n.compile env is_command
  a.unnamed_value

@[simp] theorem ok_bind {ε α β : Type} (a : α) (f : α → Except ε β) :
    (Except.ok a >>= f) = f a := rfl

@[simp] theorem error_bind {ε α β : Type} (e : ε) (f : α → Except ε β) :
    ((Except.error e : Except ε α) >>= f) = .error e := rfl

@[simp] theorem pure_eq_ok {ε α : Type} (a : α) :
    (pure a : Except ε α) = .ok a := rfl

theorem except_bind_ok {ε α β : Type} {x : Except ε α} {f : α → Except ε β}
    {b : β} (h : x >>= f = .ok b) : ∃ a, x = .ok a ∧ f a = .ok b := by
  cases x with
  | error e => simp at h
  | ok a => exact ⟨a, rfl, by simpa using h⟩

/-- C3: compiling an Assignment node in command position produces exactly:
for `=` with an Identifier target an invocation of `global:var:set` with a
single named argument; for `=` with a GetItem target a `__setitem__`
method invocation on the container with the compiled key and value; for
`=` with a GetAttr target a `__setattr__` method invocation with the
attribute name and the value; for `:=` with an Identifier target an
invocation of `global:var:let`; and for every other target or operator an
error. -/
theorem assignment_command_position (env : Scope) :
    (∀ (t : TrackedString) (style : SwitchStyle) (value : Node)
        (cmd : List String) (v : ValueDefinition),
      env.resolve ["global", "var", "set"] = some cmd →
      value.compile_value env false = .ok v →
      Node.compile_as_special_command
          (.assignment (.identifier t) style "=" value) env =
        .ok (some (CommandInvocation.mk (.value (.command cmd) t.location)
          [ArgumentDefinition.named t (propose_name t v)]))) ∧
    (∀ (container key : Node) (style : SwitchStyle) (value : Node)
        (kv vv cv : ValueDefinition),
      key.compile_value env false = .ok kv →
      value.compile_value env false = .ok vv →
      container.compile_value env true = .ok cv →
      Node.compile_as_special_command
          (.assignment (.getItem container key) style "=" value) env =
        .ok (some (CommandInvocation.mk
          (.getAttr cv ⟨"__setitem__", key.location⟩)
          [ArgumentDefinition.unnamed kv, ArgumentDefinition.unnamed vv]))) ∧
    (∀ (container : Node) (attr : TrackedString) (style : SwitchStyle)
        (value : Node) (vv cv : ValueDefinition),
      value.compile_value env false = .ok vv →
      container.compile_value env true = .ok cv →
      Node.compile_as_special_command
          (.assignment (.getAttr container attr) style "=" value) env =
        .ok (some (CommandInvocation.mk
          (.getAttr cv ⟨"__setattr__", attr.location⟩)
          [ArgumentDefinition.unnamed (.value (.string attr.string) attr.location),
           ArgumentDefinition.unnamed vv]))) ∧
    (∀ (t : TrackedString) (style : SwitchStyle) (value : Node)
        (cmd : List String) (v : ValueDefinition),
      env.resolve ["global", "var", "let"] = some cmd →
      value.compile_value env false = .ok v →
      Node.compile_as_special_command
          (.assignment (.identifier t) style ":=" value) env =
        .ok (some (CommandInvocation.mk (.value (.command cmd) t.location)
          [ArgumentDefinition.named t (propose_name t v)]))) ∧
    (∀ (target : Node) (style : SwitchStyle) (op : String) (value : Node),
      op ≠ "=" → op ≠ ":=" →
      ∃ e, Node.compile_as_special_command
        (.assignment target style op value) env = .error e) ∧
    (∀ (target : Node) (style : SwitchStyle) (value : Node),
      target.type_name ≠ "identifier" → target.type_name ≠ "subscript" →
      target.type_name ≠ "member access" →
      ∃ e, Node.compile_as_special_command
        (.assignment target style "=" value) env = .error e) ∧
    (∀ (target : Node) (style : SwitchStyle) (value : Node),
      target.type_name ≠ "identifier" →
      ∃ e, Node.compile_as_special_command
        (.assignment target style ":=" value) env = .error e) := by
  refine ⟨?_, ?_, ?_, ?_, ?_, ?_, ?_⟩
  · intro t style value cmd v hcmd hv
    simp [Node.compile_value] at hv
    obtain ⟨ad, had, hun⟩ := except_bind_ok hv
    simp [Node.compile_as_special_command, compile_standalone_assignment,
      Scope.global_static_cmd, hcmd, had, hun, function_invocation]
  · intro container key style value kv vv cv hk hv hc
    simp [Node.compile_value] at hk hv hc
    obtain ⟨kad, hkad, hkun⟩ := except_bind_ok hk
    obtain ⟨vad, hvad, hvun⟩ := except_bind_ok hv
    obtain ⟨cad, hcad, hcun⟩ := except_bind_ok hc
    simp [Node.compile_as_special_command, compile_standalone_assignment,
      Node.method_invocation, hkad, hkun, hvad, hvun, hcad, hcun]
  · intro container attr style value vv cv hv hc
    simp [Node.compile_value] at hv hc
    obtain ⟨vad, hvad, hvun⟩ := except_bind_ok hv
    obtain ⟨cad, hcad, hcun⟩ := except_bind_ok hc
    simp [Node.compile_as_special_command, compile_standalone_assignment,
      Node.method_invocation, hvad, hvun, hcad, hcun]
  · intro t style value cmd v hcmd hv
    simp [Node.compile_value] at hv
    obtain ⟨ad, had, hun⟩ := except_bind_ok hv
    simp [Node.compile_as_special_command, compile_standalone_assignment,
      Scope.global_static_cmd, hcmd, had, hun, function_invocation]
  · intro target style op value h1 h2
    simp only [Node.compile_as_special_command]
    rw [compile_standalone_assignment.eq_def]
    split
    · exact absurd rfl h1
    · exact absurd rfl h2
    · exact ⟨_, rfl⟩
  · intro target style value h1 h2 h3
    cases target <;> simp_all [Node.type_name] <;>
      exact ⟨.generic "Invalid left side in assignment",
        by simp [Node.compile_as_special_command, compile_standalone_assignment]⟩
  · intro target style value h1
    cases target <;> simp_all [Node.type_name] <;>
      exact ⟨.generic "Invalid left side in declaration",
        by simp [Node.compile_as_special_command, compile_standalone_assignment]⟩

/-- A concrete scope resolving exactly the two special assignment
commands, for the witnesses. -/
def demoScope : Scope :=
  ⟨fun path =>
    if path = ["global", "var", "set"] then some ["global", "var", "set"]
    else if path = ["global", "var", "let"] then some ["global", "var", "let"]
    else none⟩

/-- Witness for C3: each case of the standalone-assignment compilation at
concrete inputs. -/
theorem assignment_command_position_witness :
    Node.compile_as_special_command
        (.assignment (.identifier ⟨"x", ⟨0, 1⟩⟩) .normal "="
          (.glob ⟨"*", ⟨4, 5⟩⟩)) demoScope =
      .ok (some (CommandInvocation.mk
        (.value (.command ["global", "var", "set"]) ⟨0, 1⟩)
        [ArgumentDefinition.named ⟨"x", ⟨0, 1⟩⟩ (.value (.glob "*") ⟨4, 5⟩)])) ∧
    Node.compile_as_special_command
        (.assignment
          (.getItem (.identifier ⟨"d", ⟨0, 1⟩⟩) (.glob ⟨"k", ⟨2, 3⟩⟩))
          .normal "=" (.glob ⟨"v", ⟨6, 7⟩⟩)) demoScope =
      .ok (some (CommandInvocation.mk
        (.getAttr (.identifier ⟨"d", ⟨0, 1⟩⟩) ⟨"__setitem__", ⟨2, 3⟩⟩)
        [ArgumentDefinition.unnamed (.value (.glob "k") ⟨2, 3⟩),
         ArgumentDefinition.unnamed (.value (.glob "v") ⟨6, 7⟩)])) ∧
    Node.compile_as_special_command
        (.assignment (.getAttr (.identifier ⟨"o", ⟨0, 1⟩⟩) ⟨"a", ⟨2, 3⟩⟩)
          .normal "=" (.glob ⟨"v", ⟨6, 7⟩⟩)) demoScope =
      .ok (some (CommandInvocation.mk
        (.getAttr (.identifier ⟨"o", ⟨0, 1⟩⟩) ⟨"__setattr__", ⟨2, 3⟩⟩)
        [ArgumentDefinition.unnamed (.value (.string "a") ⟨2, 3⟩),
         ArgumentDefinition.unnamed (.value (.glob "v") ⟨6, 7⟩)])) ∧
    Node.compile_as_special_command
        (.assignment (.identifier ⟨"x", ⟨0, 1⟩⟩) .normal ":="
          (.glob ⟨"*", ⟨5, 6⟩⟩)) demoScope =
      .ok (some (CommandInvocation.mk
        (.value (.command ["global", "var", "let"]) ⟨0, 1⟩)
        [ArgumentDefinition.named ⟨"x", ⟨0, 1⟩⟩ (.value (.glob "*") ⟨5, 6⟩)])) ∧
    (∃ e, Node.compile_as_special_command
      (.assignment (.identifier ⟨"x", ⟨0, 1⟩⟩) .normal "+="
        (.glob ⟨"*", ⟨5, 6⟩⟩)) demoScope = .error e) ∧
    (∃ e, Node.compile_as_special_command
      (.assignment (.glob ⟨"*", ⟨0, 1⟩⟩) .normal "="
        (.glob ⟨"*", ⟨4, 5⟩⟩)) demoScope = .error e) ∧
    (∃ e, Node.compile_as_special_command
      (.assignment (.glob ⟨"*", ⟨0, 1⟩⟩) .normal ":="
        (.glob ⟨"*", ⟨5, 6⟩⟩)) demoScope = .error e) :=
  ⟨(assignment_command_position demoScope).1 ⟨"x", ⟨0, 1⟩⟩ .normal
      (.glob ⟨"*", ⟨4, 5⟩⟩) ["global", "var", "set"] (.value (.glob "*") ⟨4, 5⟩)
      rfl
      (by simp [Node.compile_value, Node.compile, ArgumentDefinition.unnamed,
        ArgumentDefinition.unnamed_value]),
   (assignment_command_position demoScope).2.1 (.identifier ⟨"d", ⟨0, 1⟩⟩)
      (.glob ⟨"k", ⟨2, 3⟩⟩) .normal (.glob ⟨"v", ⟨6, 7⟩⟩)
      (.value (.glob "k") ⟨2, 3⟩) (.value (.glob "v") ⟨6, 7⟩)
      (.identifier ⟨"d", ⟨0, 1⟩⟩)
      (by simp [Node.compile_value, Node.compile, ArgumentDefinition.unnamed,
        ArgumentDefinition.unnamed_value])
      (by simp [Node.compile_value, Node.compile, ArgumentDefinition.unnamed,
        ArgumentDefinition.unnamed_value])
      (by simp [Node.compile_value, Node.compile, ArgumentDefinition.unnamed,
        ArgumentDefinition.unnamed_value]),
   (assignment_command_position demoScope).2.2.1 (.identifier ⟨"o", ⟨0, 1⟩⟩)
      ⟨"a", ⟨2, 3⟩⟩ .normal (.glob ⟨"v", ⟨6, 7⟩⟩)
      (.value (.glob "v") ⟨6, 7⟩) (.identifier ⟨"o", ⟨0, 1⟩⟩)
      (by simp [Node.compile_value, Node.compile, ArgumentDefinition.unnamed,
        ArgumentDefinition.unnamed_value])
      (by simp [Node.compile_value, Node.compile, ArgumentDefinition.unnamed,
        ArgumentDefinition.unnamed_value]),
   (assignment_command_position demoScope).2.2.2.1 ⟨"x", ⟨0, 1⟩⟩ .normal
      (.glob ⟨"*", ⟨5, 6⟩⟩) ["global", "var", "let"] (.value (.glob "*") ⟨5, 6⟩)
      rfl
      (by simp [Node.compile_value, Node.compile, ArgumentDefinition.unnamed,
        ArgumentDefinition.unnamed_value]),
   (assignment_command_position demoScope).2.2.2.2.1 (.identifier ⟨"x", ⟨0, 1⟩⟩)
      .normal "+=" (.glob ⟨"*", ⟨5, 6⟩⟩) (by decide) (by decide),
   (assignment_command_position demoScope).2.2.2.2.2.1 (.glob ⟨"*", ⟨0, 1⟩⟩)
      .normal (.glob ⟨"*", ⟨4, 5⟩⟩) (by decide) (by decide) (by decide),
   (assignment_command_position demoScope).2.2.2.2.2.2 (.glob ⟨"*", ⟨0, 1⟩⟩)
      .normal (.glob ⟨"*", ⟨5, 6⟩⟩) (by decide)⟩

/-- C4: an unquoted String node compiles in command position to an
Identifier definition and in argument position to a literal String value;
a quoted String node compiles to the escape-decoded literal String value
in either position. -/
theorem string_node_compilation (s : String) (loc : Location) (env : Scope) :
    Node.compile (.string ⟨s, loc⟩ false) env true =
      .ok (ArgumentDefinition.unnamed (.identifier ⟨s, loc⟩)) ∧
    Node.compile (.string ⟨s, loc⟩ false) env false =
      .ok (ArgumentDefinition.unnamed (.value (.string s) loc)) ∧
    (∀ (u : String), unescape s = .ok u → ∀ (is_command : Bool),
      Node.compile (.string ⟨s, loc⟩ true) env is_command =
        .ok (ArgumentDefinition.unnamed (.value (.string u) loc))) := by
  refine ⟨by simp [Node.compile], by simp [Node.compile], ?_⟩
  intro u hu is_command
  simp [Node.compile, hu]

/-- Witness for C4: the quoted case at a concrete escaped literal. -/
theorem string_node_compilation_witness :
    Node.compile (.string ⟨"a\\nb", ⟨0, 6⟩⟩ true) demoScope true =
      .ok (ArgumentDefinition.unnamed (.value (.string "a\nb") ⟨0, 6⟩)) :=
  (string_node_compilation "a\\nb" ⟨0, 6⟩ demoScope).2.2 "a\nb" rfl true

set_option maxRecDepth 10000 in
/-- Counterexample to C5 as stated: `ValueType::Integer.parse` does not
strip underscores — it hands the text directly to `str::parse::<i128>`,
so `"1_000_000"` fails to parse instead of yielding the integer
1000000. -/
theorem integer_parse_underscore_counterexample :
    ValueType.integer.parse "1_000_000" =
      .error (.generic "invalid digit found in string") := rfl

set_option maxRecDepth 10000 in
/-- C5 (amended): only the Integer literal node compilation strips
underscores before base-10 parsing — `"1_000_000"` compiles to the
Integer value 1000000 and `"1__0"` compiles identically to `"10"` —
while `ValueType::Integer.parse` parses the text directly, so
`"1_000_000"` fails there and only the underscore-free text parses. -/
theorem integer_literal_underscores (loc : Location) (env : Scope)
    (is_command : Bool) :
    Node.compile (.integer ⟨"1_000_000", loc⟩) env is_command =
      .ok (ArgumentDefinition.unnamed (.value (.integer 1000000) loc)) ∧
    Node.compile (.integer ⟨"1__0", loc⟩) env is_command =
      Node.compile (.integer ⟨"10", loc⟩) env is_command ∧
    ValueType.integer.parse "1_000_000" =
      .error (.generic "invalid digit found in string") ∧
    ValueType.integer.parse "1000000" = .ok (.integer 1000000) := by
  refine ⟨?_, ?_, rfl, rfl⟩
  · simp [Node.compile]
    rfl
  · simp [Node.compile]
    rfl

/-! ## Node locations (C7) -/

/-- The union of a nonempty list of locations (left fold of
`Location::union` over the head). -/
def unionLocs : List Location → Location
  | [] => ⟨0, 0⟩
  | l :: rest => rest.foldl Location.union l

mutual

/-- Modelled from the spec: the locations of every token a node
contributes — leaf tokens, operator tokens, the stored locations of
grouped job bodies, and for a closure also its parameter list's tokens
(every textual token carries its source span). -/
def Node.tokenLocations : Node → List Location
  | .glob s | .identifier s | .regex s | .integer s | .float s => [s.location]
  | .string s _ | .file s _ => [s.location]
  | .assignment a _ _ b => a.tokenLocations ++ b.tokenLocations
  | .unary s a => s.location :: a.tokenLocations
  | .getItem a b => a.tokenLocations ++ b.tokenLocations
  | .getAttr p n => p.tokenLocations ++ [n.location]
  | .substitution j => [j.location]
  | .closure ps j => paramListTokens ps ++ [j.location]

/-- Token locations of an optional parameter list. -/
def paramListTokens : Option (List ParameterNode) → List Location
  | none => []
  | some l => paramsTokens l

/-- Token locations of a parameter list. -/
def paramsTokens : List ParameterNode → List Location
  | [] => []
  | p :: rest => paramTokens p ++ paramsTokens rest

/-- Token locations of one parameter: its name token and the tokens of
its type and default expressions. -/
def paramTokens : ParameterNode → List Location
  | .parameter name ty dflt =>
      name.location :: (optNodeTokens ty ++ optNodeTokens dflt)
  | .unnamedVarargs name => [name.location]
  | .namedVarargs name => [name.location]

/-- Token locations of an optional node. -/
def optNodeTokens : Option Node → List Location
  | none => []
  | some n => n.tokenLocations

end

/-- The token locations a node's `location()` actually accounts for: the
same as `tokenLocations` except that a closure contributes only its
body's location, omitting the parameter list. -/
def Node.coreTokenLocations : Node → List Location
  | .glob s | .identifier s | .regex s | .integer s | .float s => [s.location]
  | .string s _ | .file s _ => [s.location]
  | .assignment a _ _ b => a.coreTokenLocations ++ b.coreTokenLocations
  | .unary s a => s.location :: a.coreTokenLocations
  | .getItem a b => a.coreTokenLocations ++ b.coreTokenLocations
  | .getAttr p n => p.coreTokenLocations ++ [n.location]
  | .substitution j => [j.location]
  | .closure _ j => [j.location]

theorem Location.union_assoc (a b c : Location) :
    (a.union b).union c = a.union (b.union c) := by
  simp [Location.union, min_assoc, max_assoc]

theorem unionLocs_cons : ∀ (a : Location) (l : List Location), l ≠ [] →
    unionLocs (a :: l) = a.union (unionLocs l)
  | _, [], h => absurd rfl h
  | a, [b], _ => rfl
  | a, b :: c :: rest, _ => by
      have h1 := unionLocs_cons (a.union b) (c :: rest) (by simp)
      have h2 := unionLocs_cons b (c :: rest) (by simp)
      have hdef : unionLocs (a :: b :: c :: rest) =
          unionLocs ((a.union b) :: c :: rest) := rfl
      rw [hdef, h1, h2, Location.union_assoc]

theorem unionLocs_append : ∀ (xs ys : List Location), xs ≠ [] → ys ≠ [] →
    unionLocs (xs ++ ys) = (unionLocs xs).union (unionLocs ys)
  | [], _, hx, _ => absurd rfl hx
  | [x], ys, _, hy => by
      simpa using unionLocs_cons x ys hy
  | x :: x' :: xs, ys, _, hy => by
      have h1 := unionLocs_cons x ((x' :: xs) ++ ys) (by simp)
      have h2 := unionLocs_append (x' :: xs) ys (by simp) hy
      have h3 := unionLocs_cons x (x' :: xs) (by simp)
      simp only [List.cons_append] at h1 h2 ⊢
      rw [h1, h2, ← Location.union_assoc, ← h3]

theorem Location.contains_union_left (a b : Location) :
    (a.union b).contains a := by
  simp [Location.union, Location.contains]

theorem Location.contains_union_right (a b : Location) :
    (a.union b).contains b := by
  simp [Location.union, Location.contains]

theorem Location.contains_of_contains_union_right (a b c : Location)
    (h : b.contains c) : (a.union b).contains c := by
  simp [Location.union, Location.contains] at h ⊢
  omega

theorem mem_contains_unionLocs : ∀ (l : List Location) (loc : Location),
    loc ∈ l → (unionLocs l).contains loc
  | [], _, h => absurd h (by simp)
  | [a], loc, h => by
      simp at h
      subst h
      simp [unionLocs, Location.contains]
  | a :: b :: rest, loc, h => by
      rw [unionLocs_cons a (b :: rest) (by simp)]
      rcases List.mem_cons.mp h with h' | h'
      · subst h'
        exact Location.contains_union_left _ _
      · exact Location.contains_of_contains_union_right _ _ _
          (mem_contains_unionLocs (b :: rest) loc h')

theorem core_tokens_ne_nil : ∀ n : Node, n.coreTokenLocations ≠ []
  | .glob _ | .identifier _ | .regex _ | .integer _ | .float _ => by
      simp [Node.coreTokenLocations]
  | .string _ _ | .file _ _ => by simp [Node.coreTokenLocations]
  | .assignment a _ _ b => by
      simp [Node.coreTokenLocations, core_tokens_ne_nil a]
  | .unary _ _ => by simp [Node.coreTokenLocations]
  | .getItem a b => by
      simp [Node.coreTokenLocations, core_tokens_ne_nil a]
  | .getAttr p _ => by simp [Node.coreTokenLocations]
  | .substitution _ => by simp [Node.coreTokenLocations]
  | .closure _ _ => by simp [Node.coreTokenLocations]

theorem location_eq_union_core : ∀ n : Node,
    n.location = unionLocs n.coreTokenLocations
  | .glob _ | .identifier _ | .regex _ | .integer _ | .float _ => rfl
  | .string _ _ | .file _ _ => rfl
  | .assignment a style op b => by
      rw [show (Node.assignment a style op b).location =
            (Node.location a).union (Node.location b) from rfl,
        show (Node.assignment a style op b).coreTokenLocations =
            a.coreTokenLocations ++ b.coreTokenLocations from rfl,
        unionLocs_append _ _ (core_tokens_ne_nil a) (core_tokens_ne_nil b),
        location_eq_union_core a, location_eq_union_core b]
  | .unary s a => by
      rw [show (Node.unary s a).location = s.location.union (Node.location a)
            from rfl,
        show (Node.unary s a).coreTokenLocations =
            s.location :: a.coreTokenLocations from rfl,
        unionLocs_cons _ _ (core_tokens_ne_nil a), location_eq_union_core a]
  | .getItem a b => by
      rw [show (Node.getItem a b).location =
            (Node.location a).union (Node.location b) from rfl,
        show (Node.getItem a b).coreTokenLocations =
            a.coreTokenLocations ++ b.coreTokenLocations from rfl,
        unionLocs_append _ _ (core_tokens_ne_nil a) (core_tokens_ne_nil b),
        location_eq_union_core a, location_eq_union_core b]
  | .getAttr p n => by
      rw [show (Node.getAttr p n).location =
            (Node.location p).union n.location from rfl,
        show (Node.getAttr p n).coreTokenLocations =
            p.coreTokenLocations ++ [n.location] from rfl,
        unionLocs_append _ _ (core_tokens_ne_nil p) (by simp),
        location_eq_union_core p]
      rfl
  | .substitution _ => rfl
  | .closure _ _ => rfl

/-- Counterexample to C7 as stated: a closure node's `location()` is only
its body's stored location; the parameter list's name token lies outside
it, so the location neither covers every constituent token nor equals
their union. -/
theorem closure_location_counterexample :
    (Node.closure (some [.parameter ⟨"x", ⟨2, 3⟩⟩ none none])
        (JobListNode.mk [] ⟨6, 10⟩)).location = ⟨6, 10⟩ ∧
    (Node.closure (some [.parameter ⟨"x", ⟨2, 3⟩⟩ none none])
        (JobListNode.mk [] ⟨6, 10⟩)).tokenLocations = [⟨2, 3⟩, ⟨6, 10⟩] ∧
    unionLocs [⟨2, 3⟩, ⟨6, 10⟩] = (⟨2, 10⟩ : Location) ∧
    ¬ Location.contains ⟨6, 10⟩ ⟨2, 3⟩ ∧
    (Node.closure (some [.parameter ⟨"x", ⟨2, 3⟩⟩ none none])
        (JobListNode.mk [] ⟨6, 10⟩)).location ≠
      unionLocs (Node.closure (some [.parameter ⟨"x", ⟨2, 3⟩⟩ none none])
        (JobListNode.mk [] ⟨6, 10⟩)).tokenLocations := by
  refine ⟨by simp [Node.location, JobListNode.location], ?_, rfl, by decide, ?_⟩
  · simp [Node.tokenLocations, paramListTokens, paramsTokens, paramTokens,
      optNodeTokens, JobListNode.location]
  · have h : (Node.closure (some [.parameter ⟨"x", ⟨2, 3⟩⟩ none none])
        (JobListNode.mk [] ⟨6, 10⟩)).tokenLocations = [⟨2, 3⟩, ⟨6, 10⟩] := by
      simp [Node.tokenLocations, paramListTokens, paramsTokens, paramTokens,
        optNodeTokens, JobListNode.location]
    rw [h]
    simp [Node.location, JobListNode.location]
    decide

/-- C7 (amended): for every AST node, `location()` equals the union of
the locations of its constituent tokens and child nodes and therefore
covers each of them, except that a Closure contributes only its body's
stored location — the parameter list's tokens are omitted (the source
notes this in a Fixme) — and the Assignment operator carries no tracked
location of its own. -/
theorem node_location_covers (n : Node) :
    n.location = unionLocs n.coreTokenLocations ∧
    ∀ loc ∈ n.coreTokenLocations, n.location.contains loc := by
  refine ⟨location_eq_union_core n, ?_⟩
  intro loc hmem
  rw [location_eq_union_core n]
  exact mem_contains_unionLocs _ _ hmem

/-- Witness for C7 (amended): the location of a concrete assignment node
is the union of its constituent token locations and contains each. -/
theorem node_location_covers_witness :
    (Node.assignment (.identifier ⟨"x", ⟨0, 1⟩⟩) .normal "="
        (.glob ⟨"*", ⟨4, 5⟩⟩)).location = unionLocs [⟨0, 1⟩, ⟨4, 5⟩] ∧
    Location.contains
      (Node.assignment (.identifier ⟨"x", ⟨0, 1⟩⟩) .normal "="
        (.glob ⟨"*", ⟨4, 5⟩⟩)).location ⟨0, 1⟩ := by
  have h := node_location_covers
    (Node.assignment (.identifier ⟨"x", ⟨0, 1⟩⟩) .normal "="
      (.glob ⟨"*", ⟨4, 5⟩⟩))
  refine ⟨?_, h.2 ⟨0, 1⟩ (by simp [Node.coreTokenLocations])⟩
  have h1 := h.1
  simpa [Node.coreTokenLocations] using h1

/-! ## The iteration driver (`src/builtins/control/for.rs`)

The driver's loop reads one row at a time, creates a loop child scope,
binds the iteration name, evaluates the body with a fresh output pipe
feeding a local receiver, and afterwards either forwards one message and
breaks (when the child scope was stopped) or drains one message and
continues.  The body command and the scope are external to the embedding:
one body evaluation is abstracted by its observable `BodyOutcome` — the
messages it sends to its pipe, whether it leaves the child scope's
stopped flag set, and whether it returns an error. -/

/-- The observable behaviour of the `i`-th body evaluation. -/
structure BodyOutcome where
  msgs : List Value
  stops : Bool
  err : Option CrushError

/-- The record of one iteration: the child scope created for it (parent
handle, loop-frame mark) and the named argument the body was called
with. -/
structure IterRecord where
  parent : Nat
  isLoop : Bool
  argName : String
  argValue : Value

/-- The driver's state: the iteration records so far, the local
receiver's pending messages, the messages forwarded to the job-level
output, and the number of rows read. -/
structure ForState where
  records : List IterRecord
  buffer : List Value
  output : List Value
  rowsRead : Nat

/-- How the loop ended: normally (end of stream or stop), with the body's
error propagated by the `?` on `body.eval`, or blocked on a receive from
an empty local pipe (the end-of-iteration synchronization the spec calls
out). -/
inductive ForOutcome where
  | ok
  | errBody (e : CrushError)
  | errRecv
deriving DecidableEq, Repr

/-- Modelled from the spec: `Struct::from_vec(vec, types)` pairs the
schema's column names with the row's values in order
(`src/lang/data/struct.rs` is not among the sampled sources). -/
def Struct.from_vec (row : List Value) (types : List (String × ValueType)) :
    List (String × Value) :=
  (types.map Prod.fst).zip row

/-- The binding computed for one row in `r#for`: the single column's value
when the stream's schema has exactly one column (`Vec::from(line).remove(0)`),
otherwise a `Struct` built from the row and the schema. -/
def bindRowValue (types : List (String × ValueType)) (row : List Value) :
    Value :=
  if types.length = 1 then
    match row with
    | v :: _ => v
    | [] => Value.empty
  else Value.struct (Struct.from_vec row types)

/-- The loop of `r#for` from `src/builtins/control/for.rs`: while a row
can be read, create a loop child scope of the caller's scope, bind the
iteration name, evaluate the body (appending what it sends to the local
pipe), propagate a body error immediately; otherwise, if the child scope
was stopped, forward one received message to the job output and break,
else drain one received message and continue.  A receive from an empty
local pipe is the blocked-synchronization outcome. -/
def forRun (parent : Nat) (name : String)
    (types : List (String × ValueType)) (beh : Nat → BodyOutcome) :
    List (List Value) → Nat → ForState → ForState × ForOutcome
  | [], _, st => (st, .ok)
  | row :: rest, i, st =>
      let value := bindRowValue types row
      let b := beh i
      let st1 : ForState :=
        { records := st.records ++ [⟨parent, true, name, value⟩]
          buffer := st.buffer ++ b.msgs
          output := st.output
          rowsRead := st.rowsRead + 1 }
      match b.err with
      | some e => (st1, .errBody e)
      | none =>
          if b.stops then
            match st1.buffer with
            | [] => (st1, .errRecv)
            | m :: bufRest =>
                ({ st1 with buffer := bufRest, output := st1.output ++ [m] },
                 .ok)
          else
            match st1.buffer with
            | [] => (st1, .errRecv)
            | _ :: bufRest =>
                forRun parent name types beh rest (i + 1)
                  { st1 with buffer := bufRest }

/-- The driver's initial state: nothing read, nothing buffered, nothing
forwarded. -/
def initForState : ForState := ⟨[], [], [], 0⟩

/-- A good iteration: the body returns no error, sends at least one
message (so the end-of-iteration receive synchronizes), and does not stop
the loop. -/
def goodIter (beh : Nat → BodyOutcome) (i : Nat) : Prop :=
  (beh i).err = none ∧ (beh i).msgs ≠ [] ∧ (beh i).stops = false

/-- The number of messages the bodies of iterations `i, …, i+n-1` send. -/
def sentCount (beh : Nat → BodyOutcome) (i : Nat) : Nat → Nat
  | 0 => 0
  | n + 1 => (beh i).msgs.length + sentCount beh (i + 1) n

/-- The state after one good iteration. -/
def stepState (parent : Nat) (name : String)
    (types : List (String × ValueType)) (beh : Nat → BodyOutcome)
    (row : List Value) (i : Nat) (st : ForState) : ForState :=
  { records := st.records ++ [⟨parent, true, name, bindRowValue types row⟩]
    buffer := (st.buffer ++ (beh i).msgs).tail
    output := st.output
    rowsRead := st.rowsRead + 1 }

theorem forRun_good_step (parent : Nat) (name : String)
    (types : List (String × ValueType)) (beh : Nat → BodyOutcome)
    (row : List Value) (rest : List (List Value)) (i : Nat) (st : ForState)
    (h : goodIter beh i) :
    forRun parent name types beh (row :: rest) i st =
      forRun parent name types beh rest (i + 1)
        (stepState parent name types beh row i st) := by
  obtain ⟨herr, hmsg, hstop⟩ := h
  cases hb : st.buffer ++ (beh i).msgs with
  | nil =>
      rcases List.append_eq_nil.mp hb with ⟨-, h2⟩
      exact absurd h2 hmsg
  | cons m t =>
      simp [forRun, herr, hstop, hb, stepState]

theorem forRun_all_good (parent : Nat) (name : String)
    (types : List (String × ValueType)) (beh : Nat → BodyOutcome) :
    ∀ (rows : List (List Value)) (i : Nat) (st : ForState),
    (∀ j, j < rows.length → goodIter beh (i + j)) →
    (forRun parent name types beh rows i st).2 = .ok ∧
    (forRun parent name types beh rows i st).1.records.length =
      st.records.length + rows.length ∧
    (forRun parent name types beh rows i st).1.rowsRead =
      st.rowsRead + rows.length ∧
    (forRun parent name types beh rows i st).1.output = st.output ∧
    (forRun parent name types beh rows i st).1.buffer.length + rows.length =
      st.buffer.length + sentCount beh i rows.length
  | [], i, st, _ => by simp [forRun, sentCount]
  | row :: rest, i, st, hgood => by
      have h0 : goodIter beh i := by
        have := hgood 0 (by simp)
        simpa using this
      rw [forRun_good_step parent name types beh row rest i st h0]
      have ih := forRun_all_good parent name types beh rest (i + 1)
        (stepState parent name types beh row i st)
        (fun j hj => by
          have h := hgood (j + 1) (by simpa using Nat.succ_lt_succ hj)
          have he : i + (j + 1) = i + 1 + j := by omega
          rw [he] at h
          exact h)
      obtain ⟨ih1, ih2, ih3, ih4, ih5⟩ := ih
      have hmlen : 1 ≤ (beh i).msgs.length :=
        List.length_pos.mpr h0.2.1
      refine ⟨ih1, ?_, ?_, ?_, ?_⟩
      · rw [ih2]
        simp [stepState]
        omega
      · rw [ih3]
        simp [stepState]
        omega
      · rw [ih4]
        simp [stepState]
      · have hstep : (stepState parent name types beh row i st).buffer.length + 1 =
            st.buffer.length + (beh i).msgs.length := by
          simp [stepState]
          omega
        rw [show sentCount beh i (row :: rest).length =
            (beh i).msgs.length + sentCount beh (i + 1) rest.length from rfl]
        simp only [List.length_cons]
        omega

theorem forRun_stop_at (parent : Nat) (name : String)
    (types : List (String × ValueType)) (beh : Nat → BodyOutcome) :
    ∀ (k : Nat) (rows : List (List Value)) (i : Nat) (st : ForState),
    k < rows.length →
    (∀ j, j < k → goodIter beh (i + j)) →
    (beh (i + k)).err = none →
    (beh (i + k)).msgs ≠ [] →
    (beh (i + k)).stops = true →
    (forRun parent name types beh rows i st).2 = .ok ∧
    (forRun parent name types beh rows i st).1.records.length =
      st.records.length + (k + 1) ∧
    (forRun parent name types beh rows i st).1.rowsRead =
      st.rowsRead + (k + 1) ∧
    (forRun parent name types beh rows i st).1.output.length =
      st.output.length + 1
  | 0, [], _, _, hk, _, _, _, _ => absurd hk (by simp)
  | 0, row :: rest, i, st, _, _, herr, hmsg, hstops => by
      rw [Nat.add_zero] at herr hmsg hstops
      cases hb : st.buffer ++ (beh i).msgs with
      | nil =>
          rcases List.append_eq_nil.mp hb with ⟨-, h2⟩
          exact absurd h2 hmsg
      | cons m t =>
          simp [forRun, herr, hstops, hb]
  | k + 1, [], _, _, hk, _, _, _, _ => absurd hk (by simp)
  | k + 1, row :: rest, i, st, hk, hgood, herr, hmsg, hstops => by
      have h0 : goodIter beh i := by
        have := hgood 0 (by omega)
        simpa using this
      rw [forRun_good_step parent name types beh row rest i st h0]
      have hsh : i + (k + 1) = i + 1 + k := by omega
      rw [hsh] at herr hmsg hstops
      have ih := forRun_stop_at parent name types beh k rest (i + 1)
        (stepState parent name types beh row i st)
        (by simpa using Nat.lt_of_succ_lt_succ hk)
        (fun j hj => by
          have h := hgood (j + 1) (by omega)
          have he : i + (j + 1) = i + 1 + j := by omega
          rw [he] at h
          exact h)
        herr hmsg hstops
      obtain ⟨ih1, ih2, ih3, ih4⟩ := ih
      refine ⟨ih1, ?_, ?_, ?_⟩
      · rw [ih2]
        simp [stepState]
        omega
      · rw [ih3]
        simp [stepState]
        omega
      · rw [ih4]
        simp [stepState]

theorem forRun_records_mono (parent : Nat) (name : String)
    (types : List (String × ValueType)) (beh : Nat → BodyOutcome) :
    ∀ (rows : List (List Value)) (i : Nat) (st : ForState),
    ∃ tail, (forRun parent name types beh rows i st).1.records =
      st.records ++ tail
  | [], _, st => ⟨[], by simp [forRun]⟩
  | row :: rest, i, st => by
      cases herr : (beh i).err with
      | some e =>
          refine ⟨[⟨parent, true, name, bindRowValue types row⟩], ?_⟩
          simp [forRun, herr]
      | none =>
          cases hstop : (beh i).stops
          · cases hb : st.buffer ++ (beh i).msgs with
            | nil =>
                refine ⟨[⟨parent, true, name, bindRowValue types row⟩], ?_⟩
                simp [forRun, herr, hstop, hb]
            | cons m t =>
                obtain ⟨tail, ht⟩ := forRun_records_mono parent name types beh
                  rest (i + 1)
                  { records := st.records ++ [⟨parent, true, name,
                      bindRowValue types row⟩]
                    buffer := t
                    output := st.output
                    rowsRead := st.rowsRead + 1 }
                refine ⟨⟨parent, true, name, bindRowValue types row⟩ :: tail, ?_⟩
                rw [show (forRun parent name types beh (row :: rest) i st) =
                    forRun parent name types beh rest (i + 1)
                      { records := st.records ++ [⟨parent, true, name,
                          bindRowValue types row⟩]
                        buffer := t
                        output := st.output
                        rowsRead := st.rowsRead + 1 } from by
                  simp [forRun, herr, hstop, hb]]
                rw [ht]
                simp
          · cases hb : st.buffer ++ (beh i).msgs with
            | nil =>
                refine ⟨[⟨parent, true, name, bindRowValue types row⟩], ?_⟩
                simp [forRun, herr, hstop, hb]
            | cons m t =>
                refine ⟨[⟨parent, true, name, bindRowValue types row⟩], ?_⟩
                simp [forRun, herr, hstop, hb]

theorem forRun_first_record (parent : Nat) (name : String)
    (types : List (String × ValueType)) (beh : Nat → BodyOutcome)
    (row : List Value) (rest : List (List Value)) (i : Nat) (st : ForState) :
    ∃ tail, (forRun parent name types beh (row :: rest) i st).1.records =
      st.records ++ ⟨parent, true, name, bindRowValue types row⟩ :: tail := by
  cases herr : (beh i).err with
  | some e => refine ⟨[], ?_⟩; simp [forRun, herr]
  | none =>
      cases hstop : (beh i).stops
      · cases hb : st.buffer ++ (beh i).msgs with
        | nil => refine ⟨[], ?_⟩; simp [forRun, herr, hstop, hb]
        | cons m t =>
            obtain ⟨tail, ht⟩ := forRun_records_mono parent name types beh
              rest (i + 1)
              { records := st.records ++ [⟨parent, true, name,
                  bindRowValue types row⟩]
                buffer := t
                output := st.output
                rowsRead := st.rowsRead + 1 }
            refine ⟨tail, ?_⟩
            rw [show (forRun parent name types beh (row :: rest) i st) =
                forRun parent name types beh rest (i + 1)
                  { records := st.records ++ [⟨parent, true, name,
                      bindRowValue types row⟩]
                    buffer := t
                    output := st.output
                    rowsRead := st.rowsRead + 1 } from by
              simp [forRun, herr, hstop, hb]]
            rw [ht]
            simp
      · cases hb : st.buffer ++ (beh i).msgs with
        | nil => refine ⟨[], ?_⟩; simp [forRun, herr, hstop, hb]
        | cons m t => refine ⟨[], ?_⟩; simp [forRun, herr, hstop, hb]

theorem forRun_record_at (parent : Nat) (name : String)
    (types : List (String × ValueType)) (beh : Nat → BodyOutcome) :
    ∀ (k : Nat) (rows : List (List Value)) (i : Nat) (st : ForState)
      (hk : k < rows.length),
    (∀ j, j < k → goodIter beh (i + j)) →
    ((forRun parent name types beh rows i st).1.records)[st.records.length + k]? =
      some ⟨parent, true, name, bindRowValue types (rows.get ⟨k, hk⟩)⟩
  | 0, [], _, _, hk, _ => absurd hk (by simp)
  | 0, row :: rest, i, st, _, _ => by
      obtain ⟨tail, ht⟩ := forRun_first_record parent name types beh row rest i st
      rw [ht]
      rw [Nat.add_zero, List.getElem?_append_right (Nat.le_refl _)]
      simp
  | k + 1, [], _, _, hk, _ => absurd hk (by simp)
  | k + 1, row :: rest, i, st, hk, hgood => by
      have h0 : goodIter beh i := by
        have := hgood 0 (by omega)
        simpa using this
      rw [forRun_good_step parent name types beh row rest i st h0]
      have ih := forRun_record_at parent name types beh k rest (i + 1)
        (stepState parent name types beh row i st)
        (by simpa using Nat.lt_of_succ_lt_succ hk)
        (fun j hj => by
          have h := hgood (j + 1) (by omega)
          have he : i + (j + 1) = i + 1 + j := by omega
          rw [he] at h
          exact h)
      have hlen : (stepState parent name types beh row i st).records.length =
          st.records.length + 1 := by
        simp [stepState]
      rw [hlen] at ih
      have harith : st.records.length + 1 + k = st.records.length + (k + 1) := by
        omega
      rw [harith] at ih
      exact ih

theorem forRun_error_at (parent : Nat) (name : String)
    (types : List (String × ValueType)) (beh : Nat → BodyOutcome) :
    ∀ (k : Nat) (rows : List (List Value)) (i : Nat) (st : ForState)
      (e : CrushError),
    k < rows.length →
    (∀ j, j < k → goodIter beh (i + j)) →
    (beh (i + k)).err = some e →
    (forRun parent name types beh rows i st).2 = .errBody e ∧
    (forRun parent name types beh rows i st).1.records.length =
      st.records.length + (k + 1) ∧
    (forRun parent name types beh rows i st).1.rowsRead =
      st.rowsRead + (k + 1) ∧
    (forRun parent name types beh rows i st).1.output = st.output ∧
    (forRun parent name types beh rows i st).1.buffer.length + k =
      st.buffer.length + sentCount beh i (k + 1)
  | 0, [], _, _, _, hk, _, _ => absurd hk (by simp)
  | 0, row :: rest, i, st, e, _, _, herr => by
      rw [Nat.add_zero] at herr
      simp [forRun, herr, sentCount]
  | k + 1, [], _, _, _, hk, _, _ => absurd hk (by simp)
  | k + 1, row :: rest, i, st, e, hk, hgood, herr => by
      have h0 : goodIter beh i := by
        have := hgood 0 (by omega)
        simpa using this
      rw [forRun_good_step parent name types beh row rest i st h0]
      have hsh : i + (k + 1) = i + 1 + k := by omega
      rw [hsh] at herr
      have ih := forRun_error_at parent name types beh k rest (i + 1)
        (stepState parent name types beh row i st) e
        (by simpa using Nat.lt_of_succ_lt_succ hk)
        (fun j hj => by
          have h := hgood (j + 1) (by omega)
          have he : i + (j + 1) = i + 1 + j := by omega
          rw [he] at h
          exact h)
        herr
      obtain ⟨ih1, ih2, ih3, ih4, ih5⟩ := ih
      have hmlen : 1 ≤ (beh i).msgs.length :=
        List.length_pos.mpr h0.2.1
      have hstep : (stepState parent name types beh row i st).buffer.length + 1 =
          st.buffer.length + (beh i).msgs.length := by
        simp [stepState]
        omega
      refine ⟨ih1, ?_, ?_, ?_, ?_⟩
      · rw [ih2]
        simp [stepState]
        omega
      · rw [ih3]
        simp [stepState]
        omega
      · rw [ih4]
        simp [stepState]
      · rw [show sentCount beh i (k + 1 + 1) =
            (beh i).msgs.length + sentCount beh (i + 1) (k + 1) from rfl]
        omega

instance : Inhabited Value := ⟨.empty⟩

/-- C1: on a stream of N rows the body is evaluated exactly N times when
no iteration stops (nothing is forwarded to the job output and one
message is drained per iteration), and when iteration k is the first to
set the child scope's stopped flag the driver evaluates the body exactly
k+1 times, reads exactly k+1 rows — no row after the stop — and forwards
exactly one pending message from the local receiver to the job-level
output. -/
theorem for_driver_iteration_count (parent : Nat) (name : String)
    (types : List (String × ValueType)) (beh : Nat → BodyOutcome)
    (rows : List (List Value))
    (herr : ∀ i, i < rows.length → (beh i).err = none)
    (hmsg : ∀ i, i < rows.length → (beh i).msgs ≠ []) :
    ((∀ i, i < rows.length → (beh i).stops = false) →
      (forRun parent name types beh rows 0 initForState).2 = .ok ∧
      (forRun parent name types beh rows 0 initForState).1.records.length =
        rows.length ∧
      (forRun parent name types beh rows 0 initForState).1.rowsRead =
        rows.length ∧
      (forRun parent name types beh rows 0 initForState).1.output = [] ∧
      (forRun parent name types beh rows 0 initForState).1.buffer.length +
          rows.length = sentCount beh 0 rows.length) ∧
    (∀ k, k < rows.length → (beh k).stops = true →
      (∀ j, j < k → (beh j).stops = false) →
      (forRun parent name types beh rows 0 initForState).2 = .ok ∧
      (forRun parent name types beh rows 0 initForState).1.records.length =
        k + 1 ∧
      (forRun parent name types beh rows 0 initForState).1.rowsRead = k + 1 ∧
      (forRun parent name types beh rows 0 initForState).1.output.length = 1) := by
  constructor
  · intro hstop
    have h := forRun_all_good parent name types beh rows 0 initForState
      (fun j hj => by
        simp only [goodIter, Nat.zero_add]
        exact ⟨herr j hj, hmsg j hj, hstop j hj⟩)
    obtain ⟨h1, h2, h3, h4, h5⟩ := h
    refine ⟨h1, ?_, ?_, ?_, ?_⟩
    · simpa [initForState] using h2
    · simpa [initForState] using h3
    · simpa [initForState] using h4
    · simpa [initForState] using h5
  · intro k hk hstopk hstopj
    have h := forRun_stop_at parent name types beh k rows 0 initForState hk
      (fun j hj => by
        simp only [goodIter, Nat.zero_add]
        exact ⟨herr j (by omega), hmsg j (by omega), hstopj j hj⟩)
      (by simpa using herr k hk)
      (by simpa using hmsg k hk)
      (by simpa using hstopk)
    obtain ⟨h1, h2, h3, h4⟩ := h
    refine ⟨h1, ?_, ?_, ?_⟩
    · simpa [initForState] using h2
    · simpa [initForState] using h3
    · simpa [initForState] using h4

/-- C2: for each row the driver reaches, the iteration record shows a
fresh child scope of the caller's scope marked as a loop frame, and the
iteration name bound to the row's single column value when the schema has
exactly one column and otherwise to a Struct built from the row and the
schema, whose fields preserve the schema's column order and names. -/
theorem for_driver_row_binding (parent : Nat) (name : String)
    (types : List (String × ValueType)) (beh : Nat → BodyOutcome)
    (rows : List (List Value)) (k : Nat) (hk : k < rows.length)
    (hgood : ∀ j, j < k → goodIter beh j)
    (hlen : (rows.get ⟨k, hk⟩).length = types.length) :
    ((forRun parent name types beh rows 0 initForState).1.records)[k]? =
      some ⟨parent, true, name, bindRowValue types (rows.get ⟨k, hk⟩)⟩ ∧
    (types.length = 1 →
      bindRowValue types (rows.get ⟨k, hk⟩) = (rows.get ⟨k, hk⟩).headI) ∧
    (types.length ≠ 1 →
      bindRowValue types (rows.get ⟨k, hk⟩) =
        .struct ((types.map Prod.fst).zip (rows.get ⟨k, hk⟩))) ∧
    (Struct.from_vec (rows.get ⟨k, hk⟩) types).map Prod.fst =
      types.map Prod.fst ∧
    (Struct.from_vec (rows.get ⟨k, hk⟩) types).map Prod.snd =
      rows.get ⟨k, hk⟩ := by
  refine ⟨?_, ?_, ?_, ?_, ?_⟩
  · have h := forRun_record_at parent name types beh k rows 0 initForState hk
      (fun j hj => by
        simpa only [Nat.zero_add] using hgood j hj)
    simpa [initForState] using h
  · intro h1
    cases hrow : rows.get ⟨k, hk⟩ with
    | nil =>
        exfalso
        rw [hrow] at hlen
        simp at hlen
        omega
    | cons v t => simp [bindRowValue, h1, List.headI]
  · intro h1
    simp [bindRowValue, h1, Struct.from_vec]
  · exact List.map_fst_zip _ _ (by rw [List.length_map, hlen])
  · exact List.map_snd_zip _ _ (by rw [List.length_map, hlen])

/-- C10: when the body returns an error at iteration k (after k good
iterations), the driver propagates exactly that error: it has read only
k+1 rows, evaluated the body only k+1 times, forwarded nothing to the
job-level output, and performed no end-of-iteration receive for the
failing row (the failing iteration's messages all stay buffered). -/
theorem for_driver_error_propagation (parent : Nat) (name : String)
    (types : List (String × ValueType)) (beh : Nat → BodyOutcome)
    (rows : List (List Value)) (k : Nat) (e : CrushError)
    (hk : k < rows.length) (hgood : ∀ j, j < k → goodIter beh j)
    (herr : (beh k).err = some e) :
    (forRun parent name types beh rows 0 initForState).2 = .errBody e ∧
    (forRun parent name types beh rows 0 initForState).1.rowsRead = k + 1 ∧
    (forRun parent name types beh rows 0 initForState).1.records.length =
      k + 1 ∧
    (forRun parent name types beh rows 0 initForState).1.output = [] ∧
    (forRun parent name types beh rows 0 initForState).1.buffer.length + k =
      sentCount beh 0 (k + 1) := by
  have h := forRun_error_at parent name types beh k rows 0 initForState e hk
    (fun j hj => by simpa only [Nat.zero_add] using hgood j hj)
    (by simpa using herr)
  obtain ⟨h1, h2, h3, h4, h5⟩ := h
  refine ⟨h1, ?_, ?_, ?_, ?_⟩
  · simpa [initForState] using h3
  · simpa [initForState] using h2
  · simpa [initForState] using h4
  · simpa [initForState] using h5

/-- A body that sends one message, never stops and never fails. -/
def constGoodBeh : Nat → BodyOutcome := fun _ => ⟨[.integer 1], false, none⟩

/-- A body that stops the loop on the second iteration. -/
def stopAt1Beh : Nat → BodyOutcome := fun i =>
  if i = 1 then ⟨[.integer 9], true, none⟩ else ⟨[.integer 1], false, none⟩

/-- A body that fails immediately. -/
def errAt0Beh : Nat → BodyOutcome := fun _ =>
  ⟨[], false, some (.generic "boom")⟩

/-- Witness for C1: two rows with no stop give two iterations and no
forwarded output; three rows with a stop at the second iteration give two
iterations, two rows read and exactly one forwarded message. -/
theorem for_driver_iteration_count_witness :
    ((forRun 0 "i" [("c", .integer)] constGoodBeh
        [[.integer 10], [.integer 20]] 0 initForState).2 = .ok ∧
      (forRun 0 "i" [("c", .integer)] constGoodBeh
        [[.integer 10], [.integer 20]] 0 initForState).1.records.length = 2 ∧
      (forRun 0 "i" [("c", .integer)] constGoodBeh
        [[.integer 10], [.integer 20]] 0 initForState).1.rowsRead = 2 ∧
      (forRun 0 "i" [("c", .integer)] constGoodBeh
        [[.integer 10], [.integer 20]] 0 initForState).1.output = [] ∧
      (forRun 0 "i" [("c", .integer)] constGoodBeh
        [[.integer 10], [.integer 20]] 0 initForState).1.buffer.length + 2 =
        sentCount constGoodBeh 0 2) ∧
    ((forRun 0 "i" [("c", .integer)] stopAt1Beh
        [[.integer 10], [.integer 20], [.integer 30]] 0 initForState).2 =
        .ok ∧
      (forRun 0 "i" [("c", .integer)] stopAt1Beh
        [[.integer 10], [.integer 20], [.integer 30]] 0
        initForState).1.records.length = 2 ∧
      (forRun 0 "i" [("c", .integer)] stopAt1Beh
        [[.integer 10], [.integer 20], [.integer 30]] 0
        initForState).1.rowsRead = 2 ∧
      (forRun 0 "i" [("c", .integer)] stopAt1Beh
        [[.integer 10], [.integer 20], [.integer 30]] 0
        initForState).1.output.length = 1) :=
  ⟨(for_driver_iteration_count 0 "i" [("c", .integer)] constGoodBeh
      [[.integer 10], [.integer 20]]
      (fun _ _ => rfl) (fun _ _ => by simp [constGoodBeh])).1
      (fun _ _ => rfl),
   (for_driver_iteration_count 0 "i" [("c", .integer)] stopAt1Beh
      [[.integer 10], [.integer 20], [.integer 30]]
      (fun i _ => by by_cases h : i = 1 <;> simp [stopAt1Beh, h])
      (fun i _ => by by_cases h : i = 1 <;> simp [stopAt1Beh, h])).2
      1 (by simp) (by simp [stopAt1Beh])
      (fun j hj => by
        have hj0 : j = 0 := by omega
        subst hj0
        simp [stopAt1Beh])⟩

/-- Witness for C2: a two-column row binds the name to a Struct carrying
the schema's names in order. -/
theorem for_driver_row_binding_witness :
    ((forRun 0 "row" [("a", .integer), ("b", .string)] constGoodBeh
        [[.integer 1, .string "x"]] 0 initForState).1.records)[0]? =
      some ⟨0, true, "row",
        .struct [("a", .integer 1), ("b", .string "x")]⟩ := by
  have h := (for_driver_row_binding 0 "row" [("a", .integer), ("b", .string)]
    constGoodBeh [[.integer 1, .string "x"]] 0 (by simp)
    (fun j hj => absurd hj (by omega)) rfl).1
  simpa [bindRowValue, Struct.from_vec] using h

/-- Witness for C10: a body error on the first row is propagated with one
row read, one iteration, and nothing forwarded. -/
theorem for_driver_error_propagation_witness :
    (forRun 0 "i" [("c", .integer)] errAt0Beh
      [[.integer 10], [.integer 20]] 0 initForState).2 =
      .errBody (.generic "boom") ∧
    (forRun 0 "i" [("c", .integer)] errAt0Beh
      [[.integer 10], [.integer 20]] 0 initForState).1.rowsRead = 1 ∧
    (forRun 0 "i" [("c", .integer)] errAt0Beh
      [[.integer 10], [.integer 20]] 0 initForState).1.records.length = 1 ∧
    (forRun 0 "i" [("c", .integer)] errAt0Beh
      [[.integer 10], [.integer 20]] 0 initForState).1.output = [] := by
  have h := for_driver_error_propagation 0 "i" [("c", .integer)] errAt0Beh
    [[.integer 10], [.integer 20]] 0 (.generic "boom") (by simp)
    (fun j hj => absurd hj (by omega)) rfl
  exact ⟨h.1, h.2.1, h.2.2.1, h.2.2.2.1⟩

end Crush
